import Mathlib

/-!
Verification development for the IdleSpy goroutine statistics tracker.

The definitions below are a shallow embedding of the Go sources:

* `tracker/types.go` — the `SelectStats` accumulator, `AddLatency`, `GetPercentile`,
  and the `GoroutineManager`/`GoroutineStats` data model;
* `tracker/goroutine_manager.go` — `NewGoroutineManager`, `TrackGoroutineStart`,
  `TrackGoroutineEnd`, `TrackSelectCase`, `GetAllStats`;
* `tracker/goroutine_stats.go` — the JSON export record built by `SaveStatsJSON`
  (struct `CaseJSON` with its `omitempty` tags) and the blocked-time histogram
  loop of `PrintBlockedTimeHistogram`;
* `visualization/line_graph.go` and its sibling variant of
  `ParseJSONToGoroutineStats` — the efficiency computation.

Modelling conventions:

* Go `time.Time` values are integers (nanoseconds); the zero value (`IsZero`)
  of a goroutine's `EndTime` is `Option.none`.  Each tracker operation takes the
  current clock reading `now` as an explicit argument.
* Go `time.Duration` (an `int64`) is `Int`; none of the verified claims depends
  on 64-bit overflow, so durations are unbounded integers.
* Go maps are association lists (`alookup` / `aupdate`), which keeps every state
  first-order and decidable so that concrete runs evaluate by `decide`.
* The registry stores pointers (`map[GoroutineId]*GoroutineStats`).  That
  indirection is observable — `maps.Clone` in `GetAllStats` copies only the map
  of pointers — so the model has an explicit heap: `Manager.Stats` maps a
  goroutine id to an address, and `Manager.heapG` maps addresses to record
  cells.  The inner `map[string]*SelectStats` is stored inline in the cell;
  every accumulator pointer is created fresh and only ever reached through its
  record, so in-place accumulator mutation and in-cell replacement are
  observationally identical.
* Every tracker operation in `goroutine_manager.go` holds the registry mutex
  `gm.mu` for its whole body, so a concurrent execution is exactly an arbitrary
  interleaving, i.e. an arbitrary finite sequence of atomic operations (`Op`);
  `run` executes such a sequence from a fresh manager.
* The `sync.WaitGroup` completion barrier is the integer counter `wgCounter`
  (`Wg.Add(1)` increments, `Wg.Done()` decrements; a real `WaitGroup` panics if
  the counter goes negative, which the model represents as a negative counter).
  `Wg.Wait` (`AwaitCompletion`) unblocks exactly when the counter is zero.
-/

namespace IdleSpy

/-- Lookup in an association list modelling a Go map: first binding wins. -/
def alookup {α β : Type} [DecidableEq α] : List (α × β) → α → Option β
  | [], _ => none
  | (k, v) :: t, k' => if k' = k then some v else alookup t k'

/-- Update of an association list modelling Go map assignment `m[k] = v`:
replace the first binding of `k`, or append a new binding. -/
def aupdate {α β : Type} [DecidableEq α] : List (α × β) → α → β → List (α × β)
  | [], k, v => [(k, v)]
  | (k', v') :: t, k, v => if k = k' then (k, v) :: t else (k', v') :: aupdate t k v

/-- SelectStats from `tracker/types.go`: per-case accumulator with hit count,
total blocked time, and the raw latency list used for percentile queries. -/
structure SelectStats where
  BlockedCaseTime : Int
  CaseHits : Nat
  latencies : List Int
deriving DecidableEq

/-- Zero value `&SelectStats{}` allocated by `TrackSelectCase` for a new case. -/
def emptySelectStats : SelectStats := ⟨0, 0, []⟩

/-- AddLatency from `tracker/types.go`: append the latency and bump both
counters together. -/
def SelectStats.AddLatency (s : SelectStats) (latency : Int) : SelectStats :=
  { s with
    latencies := s.latencies ++ [latency]
    BlockedCaseTime := s.BlockedCaseTime + latency
    CaseHits := s.CaseHits + 1 }

/-- GetPercentile from `tracker/types.go`: sort a private copy of the latency
list ascending and return the nearest-rank element
`latencies[int(float64(n-1) * P / 100)]`, or 0 for an empty list.  The Go
float64 arithmetic is modelled exactly over `ℚ`; for `P ∈ [0, 100]` the value
`(n-1)·P/100` is non-negative, where Go's float-to-int truncation coincides
with the floor.  The accumulator itself is untouched: the sort operates on the
copy only. -/
def SelectStats.GetPercentile (s : SelectStats) (n : ℚ) : Int :=
  if s.latencies.length = 0 then 0
  else
    let latencies := s.latencies.insertionSort (· ≤ ·)
    let index := (⌊((s.latencies.length : ℚ) - 1) * n / 100⌋).toNat
    latencies.getD index 0

/-- GoroutineStats from `tracker/types.go`: one record per tracked goroutine.
`EndTime = none` models the Go zero `time.Time` (still running).  The
`map[string]*SelectStats` is stored inline (see the file comment). -/
structure GoroutineStats where
  GoroutineId : Int
  SelectStats : List (String × SelectStats)
  StartTime : Int
  EndTime : Option Int
deriving DecidableEq

/-- GoroutineManager from `tracker/types.go`, with the pointer indirection of
`Stats : map[GoroutineId]*GoroutineStats` made explicit: `Stats` maps an id to
a heap address and `heapG` maps addresses to record cells.  `nextAddr` is the
allocator; `wgCounter` is the `sync.WaitGroup` completion-barrier counter. -/
structure Manager where
  Stats : List (Int × Nat)
  heapG : List (Nat × GoroutineStats)
  nextAddr : Nat
  wgCounter : Int
deriving DecidableEq

/-- NewGoroutineManager from `tracker/goroutine_manager.go`: empty registry,
zero barrier. -/
def newGoroutineManager : Manager := ⟨[], [], 0, 0⟩

/-- TrackGoroutineStart from `tracker/goroutine_manager.go`: create the record
(with `StartTime = now` and zero `EndTime`) only if the id is absent, then
unconditionally `gm.Wg.Add(1)`.  The goroutine id obtained in Go via
`getGoroutineID()` is the explicit argument `id`. -/
def TrackGoroutineStart (id : Int) (now : Int) (m : Manager) : Manager :=
  match alookup m.Stats id with
  | some _ => { m with wgCounter := m.wgCounter + 1 }
  | none =>
      { Stats := aupdate m.Stats id m.nextAddr
        heapG := aupdate m.heapG m.nextAddr ⟨id, [], now, none⟩
        nextAddr := m.nextAddr + 1
        wgCounter := m.wgCounter + 1 }

/-- TrackGoroutineEnd from `tracker/goroutine_manager.go`: if the record
exists, overwrite `EndTime` with `now`; in every case run the deferred
`gm.Wg.Done()`, decrementing the barrier. -/
def TrackGoroutineEnd (id : Int) (now : Int) (m : Manager) : Manager :=
  match alookup m.Stats id with
  | none => { m with wgCounter := m.wgCounter - 1 }
  | some a =>
      match alookup m.heapG a with
      | none => { m with wgCounter := m.wgCounter - 1 }
      | some cell =>
          { m with
            heapG := aupdate m.heapG a { cell with EndTime := some now }
            wgCounter := m.wgCounter - 1 }

/-- TrackSelectCase from `tracker/goroutine_manager.go`: look up or lazily
create the record for `id` (implicit start with `StartTime = now`), look up or
create the `SelectStats` for `caseName`, then `AddLatency(duration)`.  The Go
code mutates the freshly inserted record/accumulator through pointers; the
model writes the composite result back into the cell. -/
def TrackSelectCase (caseName : String) (duration : Int) (id : Int) (now : Int)
    (m : Manager) : Manager :=
  match alookup m.Stats id with
  | some a =>
      match alookup m.heapG a with
      | none => m
      | some cell =>
          let s := (alookup cell.SelectStats caseName).getD emptySelectStats
          { m with
            heapG := aupdate m.heapG a
              { cell with SelectStats := aupdate cell.SelectStats caseName (s.AddLatency duration) } }
  | none =>
      { Stats := aupdate m.Stats id m.nextAddr
        heapG := aupdate m.heapG m.nextAddr
          ⟨id, aupdate [] caseName (emptySelectStats.AddLatency duration), now, none⟩
        nextAddr := m.nextAddr + 1
        wgCounter := m.wgCounter }

/-- GetAllStats from `tracker/goroutine_manager.go`: `maps.Clone(gm.Stats)`
copies only the top-level map of id-to-pointer bindings; the record cells stay
on the shared heap. -/
def GetAllStats (m : Manager) : List (Int × Nat) := m.Stats

/-- Atomic registry operations.  Each constructor carries the clock reading at
which the operation runs. -/
inductive Op where
  | start (id : Int) (now : Int)
  | stop (id : Int) (now : Int)
  | record (caseName : String) (duration : Int) (id : Int) (now : Int)
deriving DecidableEq

/-- Apply one operation to the manager state. -/
def applyOp (m : Manager) : Op → Manager
  | .start id now => TrackGoroutineStart id now m
  | .stop id now => TrackGoroutineEnd id now m
  | .record c d id now => TrackSelectCase c d id now m

/-- Run a sequence of operations from a given state. -/
def runFrom (m : Manager) (ops : List Op) : Manager := ops.foldl applyOp m

/-- Run a sequence of operations from a fresh manager. -/
def run (ops : List Op) : Manager := runFrom newGoroutineManager ops

/-- Record cell currently reachable for a goroutine id. -/
def recordOf (m : Manager) (id : Int) : Option GoroutineStats :=
  (alookup m.Stats id).bind fun a => alookup m.heapG a

/-- Accumulator currently reachable for a (goroutine, case) pair. -/
def caseOf (m : Manager) (id : Int) (c : String) : Option SelectStats :=
  (recordOf m id).bind fun cell => alookup cell.SelectStats c

/-- Hit count of the (goroutine, case) accumulator, 0 when absent. -/
def hitsOf (m : Manager) (id : Int) (c : String) : Nat :=
  ((caseOf m id c).map SelectStats.CaseHits).getD 0

/-- Total blocked time of the (goroutine, case) accumulator, 0 when absent. -/
def blockedOf (m : Manager) (id : Int) (c : String) : Int :=
  ((caseOf m id c).map SelectStats.BlockedCaseTime).getD 0

/-- Start time of the record for a goroutine id, when present. -/
def startTimeOf (m : Manager) (id : Int) : Option Int :=
  (recordOf m id).map GoroutineStats.StartTime

/-- End time of the record for a goroutine id; `none` while unset or absent. -/
def endTimeOf (m : Manager) (id : Int) : Option Int :=
  (recordOf m id).bind GoroutineStats.EndTime

/-- Number of `record` operations in a trace for a given (goroutine, case). -/
def countRecord : List Op → Int → String → Nat
  | [], _, _ => 0
  | .record c' _ id' _ :: t, id, c =>
      (if id = id' ∧ c = c' then 1 else 0) + countRecord t id c
  | _ :: t, id, c => countRecord t id c

/-- Sum of the durations of the `record` operations in a trace for a given
(goroutine, case). -/
def sumRecord : List Op → Int → String → Int
  | [], _, _ => 0
  | .record c' d id' _ :: t, id, c =>
      (if id = id' ∧ c = c' then d else 0) + sumRecord t id c
  | _ :: t, id, c => sumRecord t id c

/-- Number of `start` operations in a trace (every call increments the
barrier, matched or not). -/
def countStart : List Op → Nat
  | [] => 0
  | .start _ _ :: t => countStart t + 1
  | _ :: t => countStart t

/-- Number of `stop` operations in a trace (every call decrements the barrier,
matched or not). -/
def countStop : List Op → Nat
  | [] => 0
  | .stop _ _ :: t => countStop t + 1
  | _ :: t => countStop t

/-- Well-formedness of the explicit heap: every pointer stored in the registry
map is a live address below the allocator, and two goroutine ids never share a
record pointer (each record is allocated exactly once, for one id). -/
structure WF (m : Manager) : Prop where
  addrBound : ∀ id a, alookup m.Stats id = some a → a < m.nextAddr
  addrCell : ∀ id a, alookup m.Stats id = some a → ∃ cell, alookup m.heapG a = some cell
  addrInj : ∀ id₁ id₂ a, alookup m.Stats id₁ = some a → alookup m.Stats id₂ = some a → id₁ = id₂

/-- Per-accumulator consistency: the total blocked time is the sum of the
recorded latencies and the hit count is their number. -/
def SelectInvS (s : SelectStats) : Prop :=
  s.BlockedCaseTime = s.latencies.sum ∧ s.CaseHits = s.latencies.length

/-- Every accumulator stored anywhere on the manager's heap is consistent. -/
def SelectInv (m : Manager) : Prop :=
  ∀ a cell, alookup m.heapG a = some cell →
    ∀ c s, alookup cell.SelectStats c = some s → SelectInvS s

/-- CaseJSON from `tracker/goroutine_stats.go`: the per-case object of the
canonical JSON export.  In Go the last three fields carry the
`json:",omitempty"` tag. -/
structure CaseJSON where
  Hits : Int
  TotalBlockedTime : Int
  AvgBlockedTime : Int
  Percentile90 : Int
  Percentile99 : Int
deriving DecidableEq

/-- Per-case construction inside SaveStatsJSON (`tracker/goroutine_stats.go`):
hits and total are always copied from the accumulator; average (integer
division of Go durations, truncation toward zero, hence `Int.tdiv`), P90 and
P99 are filled in only when the hit count is positive, otherwise they remain
the zero value. -/
def buildCaseJSON (s : SelectStats) : CaseJSON :=
  if 0 < s.CaseHits then
    { Hits := s.CaseHits
      TotalBlockedTime := s.BlockedCaseTime
      AvgBlockedTime := s.BlockedCaseTime.tdiv s.CaseHits
      Percentile90 := s.GetPercentile 90
      Percentile99 := s.GetPercentile 99 }
  else
    { Hits := s.CaseHits
      TotalBlockedTime := s.BlockedCaseTime
      AvgBlockedTime := 0
      Percentile90 := 0
      Percentile99 := 0 }

/-- Fields emitted by `encoding/json` when marshalling a CaseJSON value:
`hits` and `total_blocked_time` have no `omitempty` tag and are always
present; the three derived fields carry `omitempty` and are dropped exactly
when their value is the integer zero value. -/
def caseJSONFields (j : CaseJSON) : List (String × Int) :=
  [("hits", j.Hits), ("total_blocked_time", j.TotalBlockedTime)]
    ++ (if j.AvgBlockedTime = 0 then [] else [("average_blocked_time", j.AvgBlockedTime)])
    ++ (if j.Percentile90 = 0 then [] else [("percentile_90", j.Percentile90)])
    ++ (if j.Percentile99 = 0 then [] else [("percentile_99", j.Percentile99)])

/-- Efficiency computed by ParseJSONToGoroutineStats in
`visualization/line_graph.go`: start from 1.0 and, only when the lifetime is
positive, replace it by 1 - totalBlocked/lifetime.  The Go float64 arithmetic
is modelled exactly over the rationals. -/
def lineGraphEfficiency (totalBlocked lifetime : Int) : ℚ :=
  if 0 < lifetime then 1 - (totalBlocked : ℚ) / (lifetime : ℚ) else 1

/-- Efficiency computed by the sibling ParseJSONToGoroutineStats variant (the
one whose zero-argument GenerateLineGraph is called from
`cmd/idlespy/main.go`): the accumulator starts as the zero-initialized
`var efficiency float64` and is only assigned when the lifetime is positive,
so a non-positive lifetime yields 0, not 1. -/
def parseJSONEfficiency (totalBlocked lifetime : Int) : ℚ :=
  if 0 < lifetime then 1 - (totalBlocked : ℚ) / (lifetime : ℚ) else 0

/-- Inner placement loop of PrintBlockedTimeHistogram
(`tracker/goroutine_stats.go`): the first bucket `b` in slice order with
`blocked <= b`, or none when the value exceeds every bucket. -/
def placeBucket (buckets : List Int) (blocked : Int) : Option Int :=
  buckets.find? fun b => decide (blocked ≤ b)

/-- Histogram initialisation of PrintBlockedTimeHistogram: every bucket is
seeded with count 0. -/
def emptyHistogram (buckets : List Int) : List (Int × Nat) :=
  buckets.map fun b => (b, 0)

/-- Histogram increment `histogram[b]++`. -/
def bumpHistogram (hist : List (Int × Nat)) (b : Int) : List (Int × Nat) :=
  aupdate hist b ((alookup hist b).getD 0 + 1)

/-- Main loop of PrintBlockedTimeHistogram over the tasks' total blocked
times (`stat.GetTotalSelectBlockedTime()` of each record): place each value
in the first holding bucket, or count it in the overflow tally. -/
def blockedTimeHistogram (buckets : List Int) (blockedTimes : List Int) :
    List (Int × Nat) × Nat :=
  blockedTimes.foldl
    (fun acc blocked =>
      match placeBucket buckets blocked with
      | some b => (bumpHistogram acc.1 b, acc.2)
      | none => (acc.1, acc.2 + 1))
    (emptyHistogram buckets, 0)

theorem alookup_aupdate_self {α β : Type} [DecidableEq α] (l : List (α × β)) (k : α) (v : β) :
    alookup (aupdate l k v) k = some v := by
  induction l with
  | nil => simp [alookup, aupdate]
  | cons hd t ih =>
      obtain ⟨k', v'⟩ := hd
      by_cases h : k = k' <;> simp [alookup, aupdate, h, ih]

theorem alookup_aupdate_ne {α β : Type} [DecidableEq α] (l : List (α × β)) {k k' : α} (v : β)
    (h : k' ≠ k) : alookup (aupdate l k v) k' = alookup l k' := by
  induction l with
  | nil => simp [alookup, aupdate, h]
  | cons hd t ih =>
      obtain ⟨k₀, v₀⟩ := hd
      by_cases h₀ : k = k₀
      · subst h₀
        simp [alookup, aupdate, h]
      · by_cases h₁ : k' = k₀ <;> simp [alookup, aupdate, h₀, h₁, ih]

theorem alookup_aupdate_cases {α β : Type} [DecidableEq α] (l : List (α × β)) (k k' : α)
    (v : β) {w : β} (h : alookup (aupdate l k v) k' = some w) :
    w = v ∨ alookup l k' = some w := by
  by_cases hk : k' = k
  · subst hk
    rw [alookup_aupdate_self] at h
    exact Or.inl (Option.some.inj h).symm
  · rw [alookup_aupdate_ne l v hk] at h
    exact Or.inr h

theorem wf_newGoroutineManager : WF newGoroutineManager := by
  refine ⟨?_, ?_, ?_⟩
  · intro id a h
    simp [newGoroutineManager, alookup] at h
  · intro id a h
    simp [newGoroutineManager, alookup] at h
  · intro id₁ id₂ a h₁ h₂
    simp [newGoroutineManager, alookup] at h₁

theorem wf_start (m : Manager) (id now : Int) (h : WF m) :
    WF (TrackGoroutineStart id now m) := by
  cases hs : alookup m.Stats id with
  | some a =>
      refine ⟨?_, ?_, ?_⟩ <;> simp only [TrackGoroutineStart, hs]
      · exact h.addrBound
      · exact h.addrCell
      · exact h.addrInj
  | none =>
      refine ⟨?_, ?_, ?_⟩ <;> simp only [TrackGoroutineStart, hs]
      · intro id₀ a₀ h₀
        by_cases hid : id₀ = id
        · subst hid
          rw [alookup_aupdate_self] at h₀
          injection h₀ with h₀
          omega
        · rw [alookup_aupdate_ne _ _ hid] at h₀
          have := h.addrBound id₀ a₀ h₀
          omega
      · intro id₀ a₀ h₀
        by_cases hid : id₀ = id
        · subst hid
          rw [alookup_aupdate_self] at h₀
          injection h₀ with h₀
          subst h₀
          exact ⟨_, alookup_aupdate_self _ _ _⟩
        · rw [alookup_aupdate_ne _ _ hid] at h₀
          obtain ⟨cell, hc⟩ := h.addrCell id₀ a₀ h₀
          have hlt := h.addrBound id₀ a₀ h₀
          have hne : a₀ ≠ m.nextAddr := by omega
          exact ⟨cell, by rw [alookup_aupdate_ne _ _ hne]; exact hc⟩
      · intro id₁ id₂ a₀ h₁ h₂
        by_cases hid₁ : id₁ = id <;> by_cases hid₂ : id₂ = id
        · rw [hid₁, hid₂]
        · subst hid₁
          rw [alookup_aupdate_self] at h₁
          rw [alookup_aupdate_ne _ _ hid₂] at h₂
          injection h₁ with h₁
          have := h.addrBound id₂ a₀ h₂
          omega
        · subst hid₂
          rw [alookup_aupdate_self] at h₂
          rw [alookup_aupdate_ne _ _ hid₁] at h₁
          injection h₂ with h₂
          have := h.addrBound id₁ a₀ h₁
          omega
        · rw [alookup_aupdate_ne _ _ hid₁] at h₁
          rw [alookup_aupdate_ne _ _ hid₂] at h₂
          exact h.addrInj id₁ id₂ a₀ h₁ h₂

theorem wf_stop (m : Manager) (id now : Int) (h : WF m) :
    WF (TrackGoroutineEnd id now m) := by
  cases hs : alookup m.Stats id with
  | none =>
      refine ⟨?_, ?_, ?_⟩ <;> simp only [TrackGoroutineEnd, hs]
      · exact h.addrBound
      · exact h.addrCell
      · exact h.addrInj
  | some a =>
      cases hg : alookup m.heapG a with
      | none =>
          refine ⟨?_, ?_, ?_⟩ <;> simp only [TrackGoroutineEnd, hs, hg]
          · exact h.addrBound
          · exact h.addrCell
          · exact h.addrInj
      | some cell =>
          refine ⟨?_, ?_, ?_⟩ <;> simp only [TrackGoroutineEnd, hs, hg]
          · exact h.addrBound
          · intro id₀ a₀ h₀
            by_cases ha : a₀ = a
            · subst ha
              exact ⟨_, alookup_aupdate_self _ _ _⟩
            · obtain ⟨c₀, hc⟩ := h.addrCell id₀ a₀ h₀
              exact ⟨c₀, by rw [alookup_aupdate_ne _ _ ha]; exact hc⟩
          · exact h.addrInj

theorem wf_record (m : Manager) (c : String) (d id now : Int) (h : WF m) :
    WF (TrackSelectCase c d id now m) := by
  cases hs : alookup m.Stats id with
  | some a =>
      cases hg : alookup m.heapG a with
      | none =>
          refine ⟨?_, ?_, ?_⟩ <;> simp only [TrackSelectCase, hs, hg]
          · exact h.addrBound
          · exact h.addrCell
          · exact h.addrInj
      | some cell =>
          refine ⟨?_, ?_, ?_⟩ <;> simp only [TrackSelectCase, hs, hg]
          · exact h.addrBound
          · intro id₀ a₀ h₀
            by_cases ha : a₀ = a
            · subst ha
              exact ⟨_, alookup_aupdate_self _ _ _⟩
            · obtain ⟨c₀, hc⟩ := h.addrCell id₀ a₀ h₀
              exact ⟨c₀, by rw [alookup_aupdate_ne _ _ ha]; exact hc⟩
          · exact h.addrInj
  | none =>
      refine ⟨?_, ?_, ?_⟩ <;> simp only [TrackSelectCase, hs]
      · intro id₀ a₀ h₀
        by_cases hid : id₀ = id
        · subst hid
          rw [alookup_aupdate_self] at h₀
          injection h₀ with h₀
          omega
        · rw [alookup_aupdate_ne _ _ hid] at h₀
          have := h.addrBound id₀ a₀ h₀
          omega
      · intro id₀ a₀ h₀
        by_cases hid : id₀ = id
        · subst hid
          rw [alookup_aupdate_self] at h₀
          injection h₀ with h₀
          subst h₀
          exact ⟨_, alookup_aupdate_self _ _ _⟩
        · rw [alookup_aupdate_ne _ _ hid] at h₀
          obtain ⟨cell, hc⟩ := h.addrCell id₀ a₀ h₀
          have hlt := h.addrBound id₀ a₀ h₀
          have hne : a₀ ≠ m.nextAddr := by omega
          exact ⟨cell, by rw [alookup_aupdate_ne _ _ hne]; exact hc⟩
      · intro id₁ id₂ a₀ h₁ h₂
        by_cases hid₁ : id₁ = id <;> by_cases hid₂ : id₂ = id
        · rw [hid₁, hid₂]
        · subst hid₁
          rw [alookup_aupdate_self] at h₁
          rw [alookup_aupdate_ne _ _ hid₂] at h₂
          injection h₁ with h₁
          have := h.addrBound id₂ a₀ h₂
          omega
        · subst hid₂
          rw [alookup_aupdate_self] at h₂
          rw [alookup_aupdate_ne _ _ hid₁] at h₁
          injection h₂ with h₂
          have := h.addrBound id₁ a₀ h₁
          omega
        · rw [alookup_aupdate_ne _ _ hid₁] at h₁
          rw [alookup_aupdate_ne _ _ hid₂] at h₂
          exact h.addrInj id₁ id₂ a₀ h₁ h₂

theorem wf_applyOp (m : Manager) (op : Op) (h : WF m) : WF (applyOp m op) := by
  cases op with
  | start id now => exact wf_start m id now h
  | stop id now => exact wf_stop m id now h
  | record c d id now => exact wf_record m c d id now h

theorem wf_runFrom (ops : List Op) (m : Manager) (h : WF m) : WF (runFrom m ops) := by
  induction ops generalizing m with
  | nil => exact h
  | cons op t ih => exact ih (applyOp m op) (wf_applyOp m op h)

theorem wf_run (ops : List Op) : WF (run ops) :=
  wf_runFrom ops newGoroutineManager wf_newGoroutineManager

theorem caseOf_start (m : Manager) (id' now id : Int) (c : String) (h : WF m) :
    caseOf (TrackGoroutineStart id' now m) id c = caseOf m id c := by
  cases hs : alookup m.Stats id' with
  | some a => simp [TrackGoroutineStart, hs, caseOf, recordOf]
  | none =>
      by_cases hid : id = id'
      · subst hid
        simp [TrackGoroutineStart, hs, caseOf, recordOf, alookup_aupdate_self, alookup]
      · have h1 : alookup (aupdate m.Stats id' m.nextAddr) id = alookup m.Stats id :=
          alookup_aupdate_ne _ _ hid
        cases h2 : alookup m.Stats id with
        | none => simp [TrackGoroutineStart, hs, caseOf, recordOf, h1, h2]
        | some a =>
            have hlt := h.addrBound id a h2
            have hne : a ≠ m.nextAddr := by omega
            simp [TrackGoroutineStart, hs, caseOf, recordOf, h1, h2,
              alookup_aupdate_ne _ _ hne]

theorem caseOf_stop (m : Manager) (id' now id : Int) (c : String) :
    caseOf (TrackGoroutineEnd id' now m) id c = caseOf m id c := by
  cases hs : alookup m.Stats id' with
  | none => simp [TrackGoroutineEnd, hs, caseOf, recordOf]
  | some a' =>
      cases hg : alookup m.heapG a' with
      | none => simp [TrackGoroutineEnd, hs, hg, caseOf, recordOf]
      | some cell =>
          cases h2 : alookup m.Stats id with
          | none => simp [TrackGoroutineEnd, hs, hg, caseOf, recordOf, h2]
          | some a =>
              by_cases ha : a = a'
              · subst ha
                simp [TrackGoroutineEnd, hs, hg, caseOf, recordOf, h2,
                  alookup_aupdate_self]
              · simp [TrackGoroutineEnd, hs, hg, caseOf, recordOf, h2,
                  alookup_aupdate_ne _ _ ha]

theorem caseOf_record (m : Manager) (c' : String) (d id' now id : Int) (c : String)
    (h : WF m) :
    caseOf (TrackSelectCase c' d id' now m) id c =
      if id = id' ∧ c = c' then some (((caseOf m id c).getD emptySelectStats).AddLatency d)
      else caseOf m id c := by
  cases hs : alookup m.Stats id' with
  | some a' =>
      obtain ⟨cell, hg⟩ := h.addrCell id' a' hs
      cases h2 : alookup m.Stats id with
      | none =>
          have hid : ¬ id = id' := by
            intro he
            rw [he, hs] at h2
            cases h2
          simp [TrackSelectCase, hs, hg, caseOf, recordOf, h2, hid]
      | some a =>
          by_cases ha : a = a'
          · subst ha
            have hid : id = id' := h.addrInj id id' a h2 hs
            subst hid
            by_cases hc : c = c'
            · subst hc
              simp [TrackSelectCase, hs, hg, caseOf, recordOf, h2, alookup_aupdate_self]
            · simp [TrackSelectCase, hs, hg, caseOf, recordOf, h2, alookup_aupdate_self,
                alookup_aupdate_ne _ _ hc, hc]
          · have hid : ¬ id = id' := by
              intro he
              rw [he, hs] at h2
              injection h2 with h2
              exact ha h2.symm
            simp [TrackSelectCase, hs, hg, caseOf, recordOf, h2,
              alookup_aupdate_ne _ _ ha, hid]
  | none =>
      by_cases hid : id = id'
      · subst hid
        by_cases hc : c = c'
        · subst hc
          simp [TrackSelectCase, hs, caseOf, recordOf, alookup_aupdate_self]
        · simp [TrackSelectCase, hs, caseOf, recordOf, alookup_aupdate_self, hc,
            alookup_aupdate_ne _ _ hc, alookup]
      · cases h2 : alookup m.Stats id with
        | none =>
            simp [TrackSelectCase, hs, caseOf, recordOf, h2,
              alookup_aupdate_ne _ _ hid, hid]
        | some a =>
            have hlt := h.addrBound id a h2
            have hne : a ≠ m.nextAddr := by omega
            simp [TrackSelectCase, hs, caseOf, recordOf, h2, alookup_aupdate_ne _ _ hid,
              alookup_aupdate_ne _ _ hne, hid]

theorem endTimeOf_start (m : Manager) (id' now id : Int) (h : WF m) :
    endTimeOf (TrackGoroutineStart id' now m) id = endTimeOf m id := by
  cases hs : alookup m.Stats id' with
  | some a => simp [TrackGoroutineStart, hs, endTimeOf, recordOf]
  | none =>
      by_cases hid : id = id'
      · subst hid
        simp [TrackGoroutineStart, hs, endTimeOf, recordOf, alookup_aupdate_self]
      · have h1 : alookup (aupdate m.Stats id' m.nextAddr) id = alookup m.Stats id :=
          alookup_aupdate_ne _ _ hid
        cases h2 : alookup m.Stats id with
        | none => simp [TrackGoroutineStart, hs, endTimeOf, recordOf, h1, h2]
        | some a =>
            have hlt := h.addrBound id a h2
            have hne : a ≠ m.nextAddr := by omega
            simp [TrackGoroutineStart, hs, endTimeOf, recordOf, h1, h2,
              alookup_aupdate_ne _ _ hne]

theorem endTimeOf_record (m : Manager) (c' : String) (d id' now id : Int) (h : WF m) :
    endTimeOf (TrackSelectCase c' d id' now m) id = endTimeOf m id := by
  cases hs : alookup m.Stats id' with
  | some a' =>
      obtain ⟨cell, hg⟩ := h.addrCell id' a' hs
      cases h2 : alookup m.Stats id with
      | none => simp [TrackSelectCase, hs, hg, endTimeOf, recordOf, h2]
      | some a =>
          by_cases ha : a = a'
          · subst ha
            simp [TrackSelectCase, hs, hg, endTimeOf, recordOf, h2, alookup_aupdate_self]
          · simp [TrackSelectCase, hs, hg, endTimeOf, recordOf, h2,
              alookup_aupdate_ne _ _ ha]
  | none =>
      by_cases hid : id = id'
      · subst hid
        simp [TrackSelectCase, hs, endTimeOf, recordOf, alookup_aupdate_self]
      · cases h2 : alookup m.Stats id with
        | none =>
            simp [TrackSelectCase, hs, endTimeOf, recordOf, h2, alookup_aupdate_ne _ _ hid]
        | some a =>
            have hlt := h.addrBound id a h2
            have hne : a ≠ m.nextAddr := by omega
            simp [TrackSelectCase, hs, endTimeOf, recordOf, h2, alookup_aupdate_ne _ _ hid,
              alookup_aupdate_ne _ _ hne]

theorem stop_heapG (m : Manager) (id now : Int) (a : Nat) (cell : GoroutineStats)
    (hs : alookup m.Stats id = some a) (hg : alookup m.heapG a = some cell) :
    alookup (TrackGoroutineEnd id now m).heapG a = some { cell with EndTime := some now } := by
  simp [TrackGoroutineEnd, hs, hg, alookup_aupdate_self]

theorem endTimeOf_stop_set (m : Manager) (id now : Int) (a : Nat) (cell : GoroutineStats)
    (hs : alookup m.Stats id = some a) (hg : alookup m.heapG a = some cell) :
    endTimeOf (TrackGoroutineEnd id now m) id = some now := by
  simp [TrackGoroutineEnd, hs, hg, endTimeOf, recordOf, alookup_aupdate_self]

theorem startTimeOf_stop (m : Manager) (id' now id : Int) :
    startTimeOf (TrackGoroutineEnd id' now m) id = startTimeOf m id := by
  cases hs : alookup m.Stats id' with
  | none => simp [TrackGoroutineEnd, hs, startTimeOf, recordOf]
  | some a' =>
      cases hg : alookup m.heapG a' with
      | none => simp [TrackGoroutineEnd, hs, hg, startTimeOf, recordOf]
      | some cell =>
          cases h2 : alookup m.Stats id with
          | none => simp [TrackGoroutineEnd, hs, hg, startTimeOf, recordOf, h2]
          | some a =>
              by_cases ha : a = a'
              · subst ha
                simp [TrackGoroutineEnd, hs, hg, startTimeOf, recordOf, h2,
                  alookup_aupdate_self]
              · simp [TrackGoroutineEnd, hs, hg, startTimeOf, recordOf, h2,
                  alookup_aupdate_ne _ _ ha]

theorem wg_start (m : Manager) (id now : Int) :
    (TrackGoroutineStart id now m).wgCounter = m.wgCounter + 1 := by
  cases hs : alookup m.Stats id <;> simp [TrackGoroutineStart, hs]

theorem wg_stop (m : Manager) (id now : Int) :
    (TrackGoroutineEnd id now m).wgCounter = m.wgCounter - 1 := by
  cases hs : alookup m.Stats id with
  | none => simp [TrackGoroutineEnd, hs]
  | some a => cases hg : alookup m.heapG a <;> simp [TrackGoroutineEnd, hs, hg]

theorem wg_record (m : Manager) (c : String) (d id now : Int) :
    (TrackSelectCase c d id now m).wgCounter = m.wgCounter := by
  cases hs : alookup m.Stats id with
  | none => simp [TrackSelectCase, hs]
  | some a => cases hg : alookup m.heapG a <;> simp [TrackSelectCase, hs, hg]

theorem wg_runFrom (ops : List Op) (m : Manager) :
    (runFrom m ops).wgCounter = m.wgCounter + (countStart ops : Int) - (countStop ops : Int) := by
  induction ops generalizing m with
  | nil => simp [runFrom, countStart, countStop]
  | cons op t ih =>
      have hstep : runFrom m (op :: t) = runFrom (applyOp m op) t := rfl
      rw [hstep, ih]
      cases op with
      | start id now =>
          have : applyOp m (Op.start id now) = TrackGoroutineStart id now m := rfl
          rw [this, wg_start]
          simp [countStart, countStop]
          omega
      | stop id now =>
          have : applyOp m (Op.stop id now) = TrackGoroutineEnd id now m := rfl
          rw [this, wg_stop]
          simp [countStart, countStop]
          omega
      | record c d id now =>
          have : applyOp m (Op.record c d id now) = TrackSelectCase c d id now m := rfl
          rw [this, wg_record]
          simp [countStart, countStop]

theorem hitsOf_start (m : Manager) (id' now id : Int) (c : String) (h : WF m) :
    hitsOf (TrackGoroutineStart id' now m) id c = hitsOf m id c := by
  rw [hitsOf, caseOf_start m id' now id c h, hitsOf]

theorem hitsOf_stop (m : Manager) (id' now id : Int) (c : String) :
    hitsOf (TrackGoroutineEnd id' now m) id c = hitsOf m id c := by
  rw [hitsOf, caseOf_stop m id' now id c, hitsOf]

theorem hitsOf_record (m : Manager) (c' : String) (d id' now id : Int) (c : String)
    (h : WF m) :
    hitsOf (TrackSelectCase c' d id' now m) id c =
      hitsOf m id c + (if id = id' ∧ c = c' then 1 else 0) := by
  rw [hitsOf, caseOf_record m c' d id' now id c h]
  by_cases hcond : id = id' ∧ c = c'
  · obtain ⟨h1, h2⟩ := hcond
    subst h1
    subst h2
    cases hco : caseOf m id c <;>
      simp [hitsOf, hco, SelectStats.AddLatency, emptySelectStats]
  · simp [hcond, hitsOf]

theorem blockedOf_start (m : Manager) (id' now id : Int) (c : String) (h : WF m) :
    blockedOf (TrackGoroutineStart id' now m) id c = blockedOf m id c := by
  rw [blockedOf, caseOf_start m id' now id c h, blockedOf]

theorem blockedOf_stop (m : Manager) (id' now id : Int) (c : String) :
    blockedOf (TrackGoroutineEnd id' now m) id c = blockedOf m id c := by
  rw [blockedOf, caseOf_stop m id' now id c, blockedOf]

theorem blockedOf_record (m : Manager) (c' : String) (d id' now id : Int) (c : String)
    (h : WF m) :
    blockedOf (TrackSelectCase c' d id' now m) id c =
      blockedOf m id c + (if id = id' ∧ c = c' then d else 0) := by
  rw [blockedOf, caseOf_record m c' d id' now id c h]
  by_cases hcond : id = id' ∧ c = c'
  · obtain ⟨h1, h2⟩ := hcond
    subst h1
    subst h2
    cases hco : caseOf m id c <;>
      simp [blockedOf, hco, SelectStats.AddLatency, emptySelectStats]
  · simp [hcond, blockedOf]

theorem hitsOf_runFrom (ops : List Op) (m : Manager) (id : Int) (c : String) (h : WF m) :
    hitsOf (runFrom m ops) id c = hitsOf m id c + countRecord ops id c := by
  induction ops generalizing m with
  | nil => simp [runFrom, countRecord]
  | cons op t ih =>
      have hstep : runFrom m (op :: t) = runFrom (applyOp m op) t := rfl
      rw [hstep, ih (applyOp m op) (wf_applyOp m op h)]
      cases op with
      | start id₀ now₀ =>
          have he : applyOp m (Op.start id₀ now₀) = TrackGoroutineStart id₀ now₀ m := rfl
          rw [he, hitsOf_start m id₀ now₀ id c h]
          simp [countRecord]
      | stop id₀ now₀ =>
          have he : applyOp m (Op.stop id₀ now₀) = TrackGoroutineEnd id₀ now₀ m := rfl
          rw [he, hitsOf_stop m id₀ now₀ id c]
          simp [countRecord]
      | record c₀ d₀ id₀ now₀ =>
          have he : applyOp m (Op.record c₀ d₀ id₀ now₀) = TrackSelectCase c₀ d₀ id₀ now₀ m :=
            rfl
          rw [he, hitsOf_record m c₀ d₀ id₀ now₀ id c h]
          by_cases hcond : id = id₀ ∧ c = c₀
          · simp [countRecord, hcond]
            omega
          · simp [countRecord, hcond]

theorem blockedOf_runFrom (ops : List Op) (m : Manager) (id : Int) (c : String) (h : WF m) :
    blockedOf (runFrom m ops) id c = blockedOf m id c + sumRecord ops id c := by
  induction ops generalizing m with
  | nil => simp [runFrom, sumRecord]
  | cons op t ih =>
      have hstep : runFrom m (op :: t) = runFrom (applyOp m op) t := rfl
      rw [hstep, ih (applyOp m op) (wf_applyOp m op h)]
      cases op with
      | start id₀ now₀ =>
          have he : applyOp m (Op.start id₀ now₀) = TrackGoroutineStart id₀ now₀ m := rfl
          rw [he, blockedOf_start m id₀ now₀ id c h]
          simp [sumRecord]
      | stop id₀ now₀ =>
          have he : applyOp m (Op.stop id₀ now₀) = TrackGoroutineEnd id₀ now₀ m := rfl
          rw [he, blockedOf_stop m id₀ now₀ id c]
          simp [sumRecord]
      | record c₀ d₀ id₀ now₀ =>
          have he : applyOp m (Op.record c₀ d₀ id₀ now₀) = TrackSelectCase c₀ d₀ id₀ now₀ m :=
            rfl
          rw [he, blockedOf_record m c₀ d₀ id₀ now₀ id c h]
          by_cases hcond : id = id₀ ∧ c = c₀
          · simp [sumRecord, hcond]
            ring
          · simp [sumRecord, hcond]

theorem selectInvS_addLatency {s : SelectStats} (h : SelectInvS s) (d : Int) :
    SelectInvS (s.AddLatency d) := by
  obtain ⟨h1, h2⟩ := h
  constructor <;> simp [SelectStats.AddLatency, h1, h2]

theorem selectInvS_empty : SelectInvS emptySelectStats := by
  constructor <;> simp [emptySelectStats]

theorem selectInv_start (m : Manager) (id now : Int) (h : SelectInv m) :
    SelectInv (TrackGoroutineStart id now m) := by
  cases hs : alookup m.Stats id with
  | some a =>
      intro a₀ cell₀ hg₀ c s hcs
      exact h a₀ cell₀ (by simpa [TrackGoroutineStart, hs] using hg₀) c s hcs
  | none =>
      intro a₀ cell₀ hg₀ c s hcs
      simp only [TrackGoroutineStart, hs] at hg₀
      rcases alookup_aupdate_cases _ _ _ _ hg₀ with hnew | hold
      · subst hnew
        simp [alookup] at hcs
      · exact h a₀ cell₀ hold c s hcs

theorem selectInv_stop (m : Manager) (id now : Int) (h : SelectInv m) :
    SelectInv (TrackGoroutineEnd id now m) := by
  cases hs : alookup m.Stats id with
  | none =>
      intro a₀ cell₀ hg₀ c s hcs
      exact h a₀ cell₀ (by simpa [TrackGoroutineEnd, hs] using hg₀) c s hcs
  | some a =>
      cases hg : alookup m.heapG a with
      | none =>
          intro a₀ cell₀ hg₀ c s hcs
          exact h a₀ cell₀ (by simpa [TrackGoroutineEnd, hs, hg] using hg₀) c s hcs
      | some cell =>
          intro a₀ cell₀ hg₀ c s hcs
          simp only [TrackGoroutineEnd, hs, hg] at hg₀
          rcases alookup_aupdate_cases _ _ _ _ hg₀ with hnew | hold
          · subst hnew
            exact h a cell hg c s hcs
          · exact h a₀ cell₀ hold c s hcs

theorem selectInv_record (m : Manager) (c' : String) (d id now : Int) (h : SelectInv m) :
    SelectInv (TrackSelectCase c' d id now m) := by
  cases hs : alookup m.Stats id with
  | some a =>
      cases hg : alookup m.heapG a with
      | none =>
          intro a₀ cell₀ hg₀ c s hcs
          exact h a₀ cell₀ (by simpa [TrackSelectCase, hs, hg] using hg₀) c s hcs
      | some cell =>
          intro a₀ cell₀ hg₀ c s hcs
          simp only [TrackSelectCase, hs, hg] at hg₀
          rcases alookup_aupdate_cases _ _ _ _ hg₀ with hnew | hold
          · subst hnew
            simp only at hcs
            rcases alookup_aupdate_cases _ _ _ _ hcs with hsnew | hsold
            · subst hsnew
              cases hlk : alookup cell.SelectStats c' with
              | none => simpa [hlk] using selectInvS_addLatency selectInvS_empty d
              | some s₀ =>
                  simpa [hlk] using selectInvS_addLatency (h a cell hg c' s₀ hlk) d
            · exact h a cell hg c s hsold
          · exact h a₀ cell₀ hold c s hcs
  | none =>
      intro a₀ cell₀ hg₀ c s hcs
      simp only [TrackSelectCase, hs] at hg₀
      rcases alookup_aupdate_cases _ _ _ _ hg₀ with hnew | hold
      · subst hnew
        simp only at hcs
        rcases alookup_aupdate_cases _ _ _ _ hcs with hsnew | hsold
        · subst hsnew
          exact selectInvS_addLatency selectInvS_empty d
        · simp [alookup] at hsold
      · exact h a₀ cell₀ hold c s hcs

theorem selectInv_applyOp (m : Manager) (op : Op) (h : SelectInv m) :
    SelectInv (applyOp m op) := by
  cases op with
  | start id now => exact selectInv_start m id now h
  | stop id now => exact selectInv_stop m id now h
  | record c d id now => exact selectInv_record m c d id now h

theorem selectInv_runFrom (ops : List Op) (m : Manager) (h : SelectInv m) :
    SelectInv (runFrom m ops) := by
  induction ops generalizing m with
  | nil => exact h
  | cons op t ih => exact ih (applyOp m op) (selectInv_applyOp m op h)

theorem selectInv_new : SelectInv newGoroutineManager := by
  intro a cell hg
  simp [newGoroutineManager, alookup] at hg

theorem selectInv_run (ops : List Op) : SelectInv (run ops) :=
  selectInv_runFrom ops newGoroutineManager selectInv_new

theorem placeBucket_first (t : Int) (buckets : List Int) (hsorted : buckets.Sorted (· ≤ ·)) :
    ∀ b, placeBucket buckets t = some b →
      b ∈ buckets ∧ t ≤ b ∧ ∀ b' ∈ buckets, t ≤ b' → b ≤ b' := by
  induction buckets with
  | nil =>
      intro b hb
      simp [placeBucket] at hb
  | cons x xs ih =>
      intro b hb
      have hsx := List.sorted_cons.mp hsorted
      by_cases hx : t ≤ x
      · have hbx : x = b := by simpa [placeBucket, List.find?, hx] using hb
        subst hbx
        refine ⟨List.mem_cons_self x xs, hx, ?_⟩
        intro b' hb' _
        rcases List.mem_cons.mp hb' with h | h
        · exact le_of_eq h.symm
        · exact hsx.1 b' h
      · have htail : placeBucket xs t = some b := by
          simpa [placeBucket, List.find?, hx] using hb
        obtain ⟨hmem, hle, hmin⟩ := ih hsx.2 b htail
        refine ⟨List.mem_cons_of_mem x hmem, hle, ?_⟩
        intro b' hb' ht'
        rcases List.mem_cons.mp hb' with h | h
        · exact absurd (h ▸ ht') hx
        · exact hmin b' h ht'

/-- C1 counterexample: take a snapshot of a registry holding one started task,
then call TrackGoroutineEnd.  Dereferencing the record pointer stored in the
snapshot now yields a different record (endTime became set), so the value
returned by GetAllStats is not an independent deep copy. -/
theorem C1_counterexample :
    (alookup (GetAllStats (run [Op.start 1 0])) 1).bind
        (fun a => alookup (run [Op.start 1 0]).heapG a) ≠
      (alookup (GetAllStats (run [Op.start 1 0])) 1).bind
        (fun a => alookup (run [Op.start 1 0, Op.stop 1 5]).heapG a) := by decide

/-- C1 amended: GetAllStats clones only the top-level map of record pointers.
A subsequent TrackGoroutineStart of a fresh id allocates a new cell that is
invisible to the snapshot and leaves every snapshotted cell unchanged, but a
subsequent TrackGoroutineEnd on a snapshotted task mutates the shared cell,
and the mutation is visible through the snapshot's pointer. -/
theorem C1_amended (m : Manager) (h : WF m) (idN now : Int)
    (hN : alookup m.Stats idN = none) :
    (alookup (GetAllStats m) idN = none ∧
      ∀ id a, alookup (GetAllStats m) id = some a →
        alookup (TrackGoroutineStart idN now m).heapG a = alookup m.heapG a) ∧
    (∀ id a cell, alookup (GetAllStats m) id = some a →
      alookup m.heapG a = some cell →
      alookup (TrackGoroutineEnd id now m).heapG a =
        some { cell with EndTime := some now }) := by
  refine ⟨⟨hN, ?_⟩, ?_⟩
  · intro id a hlook
    have hb := h.addrBound id a hlook
    have hne : a ≠ m.nextAddr := by omega
    simp [TrackGoroutineStart, hN, alookup_aupdate_ne _ _ hne]
  · intro id a cell hlook hg
    exact stop_heapG m id now a cell hlook hg

/-- C1 witness: on a concrete one-task registry, the fresh id 2 is absent from
the snapshot, and ending task 1 rewrites the cell at the snapshotted
address 0. -/
theorem C1_witness :
    alookup (GetAllStats (run [Op.start 1 0])) 2 = none ∧
    alookup (TrackGoroutineEnd 1 5 (run [Op.start 1 0])).heapG 0 =
      some ⟨1, [], 0, some 5⟩ :=
  ⟨((C1_amended (run [Op.start 1 0]) (wf_run _) 2 5 (by decide)).1).1,
    (C1_amended (run [Op.start 1 0]) (wf_run _) 2 5 (by decide)).2 1 0
      ⟨1, [], 0, none⟩ (by decide) (by decide)⟩

/-- C2: every registry operation preserves, for every case accumulator stored
in the manager — in particular for every accumulator visible through a
GetAllStats snapshot — the invariant totalBlockedTime = sum(latencies) and
hits = length(latencies): after any sequence of operations run from a fresh
manager the invariant holds everywhere. -/
theorem C2_accumulator_invariant (ops : List Op) :
    SelectInv (run ops) ∧
    ∀ id a cell c s,
      alookup (GetAllStats (run ops)) id = some a →
      alookup (run ops).heapG a = some cell →
      alookup cell.SelectStats c = some s →
      s.BlockedCaseTime = s.latencies.sum ∧ s.CaseHits = s.latencies.length := by
  refine ⟨selectInv_run ops, ?_⟩
  intro id a cell c s _ hg hcs
  exact selectInv_run ops a cell hg c s hcs

/-- C2 witness: the accumulator created by a single RecordCase of duration 5
satisfies the invariant in the resulting snapshot. -/
theorem C2_witness :
    (5 : Int) = ([5] : List Int).sum ∧ (1 : Nat) = ([5] : List Int).length :=
  (C2_accumulator_invariant [Op.record "c" 5 1 0]).2 1 0
    ⟨1, [("c", ⟨5, 1, [5]⟩)], 0, none⟩ "c" ⟨5, 1, [5]⟩ (by decide) (by decide) (by decide)

/-- C3: no lost updates.  Every operation of the tracker holds the registry
mutex for its whole body, so a concurrent execution is an arbitrary
interleaving, i.e. an arbitrary sequence of atomic operations.  After any such
sequence, the accumulator of every (goroutine, case) pair has a hit count
equal to the number of RecordCase calls for that pair and a total blocked time
equal to the sum of their durations. -/
theorem C3_no_lost_updates (ops : List Op) (id : Int) (c : String) :
    hitsOf (run ops) id c = countRecord ops id c ∧
    blockedOf (run ops) id c = sumRecord ops id c := by
  have h1 := hitsOf_runFrom ops newGoroutineManager id c wf_newGoroutineManager
  have h2 := blockedOf_runFrom ops newGoroutineManager id c wf_newGoroutineManager
  have e1 : hitsOf newGoroutineManager id c = 0 := by
    simp [hitsOf, caseOf, recordOf, newGoroutineManager, alookup]
  have e2 : blockedOf newGoroutineManager id c = 0 := by
    simp [blockedOf, caseOf, recordOf, newGoroutineManager, alookup]
  constructor
  · rw [run, h1, e1]
    omega
  · rw [run, h2, e2]
    ring

/-- C3 witness: a single RecordCase of duration 5 yields a hit count and
total matching the trace counts. -/
theorem C3_witness :
    hitsOf (run [Op.record "c" 5 1 0]) 1 "c" = countRecord [Op.record "c" 5 1 0] 1 "c" ∧
    blockedOf (run [Op.record "c" 5 1 0]) 1 "c" = sumRecord [Op.record "c" 5 1 0] 1 "c" :=
  C3_no_lost_updates [Op.record "c" 5 1 0] 1 "c"

/-- C4 counterexample: TrackGoroutineEnd with no matching start (fresh
manager) is not a no-op — it still runs the deferred Wg.Done() and drives the
completion barrier to -1 (a real sync.WaitGroup would panic here). -/
theorem C4_counterexample :
    TrackGoroutineEnd 1 5 newGoroutineManager ≠ newGoroutineManager ∧
    (TrackGoroutineEnd 1 5 newGoroutineManager).wgCounter = -1 := by decide

/-- C4 amended: EndTask sets endTime when the record exists and leaves the
task map and heap untouched when the id is unknown, but it decrements the
completion barrier exactly once per call, matched or not; consequently the
barrier is zero — AwaitCompletion unblocks — exactly when the number of
EndTask calls, matching or not, equals the number of StartTask calls. -/
theorem C4_amended (m : Manager) (id now : Int) (ops : List Op) :
    (TrackGoroutineEnd id now m).wgCounter = m.wgCounter - 1 ∧
    (alookup m.Stats id = none →
      TrackGoroutineEnd id now m = { m with wgCounter := m.wgCounter - 1 }) ∧
    (∀ a cell, alookup m.Stats id = some a → alookup m.heapG a = some cell →
      endTimeOf (TrackGoroutineEnd id now m) id = some now) ∧
    (run ops).wgCounter = (countStart ops : Int) - (countStop ops : Int) := by
  refine ⟨wg_stop m id now, ?_, ?_, ?_⟩
  · intro hnone
    simp [TrackGoroutineEnd, hnone]
  · intro a cell hs hg
    exact endTimeOf_stop_set m id now a cell hs hg
  · have hw := wg_runFrom ops newGoroutineManager
    rw [run, hw]
    simp [newGoroutineManager]

/-- C4 witness: ending the unknown id 2 only decrements the barrier, and
ending the known id 1 at time 7 sets its endTime to 7. -/
theorem C4_witness :
    (TrackGoroutineEnd 2 7 newGoroutineManager =
      { newGoroutineManager with wgCounter := newGoroutineManager.wgCounter - 1 }) ∧
    endTimeOf (TrackGoroutineEnd 1 7 (run [Op.start 1 0])) 1 = some 7 :=
  ⟨(C4_amended newGoroutineManager 2 7 []).2.1 (by decide),
    (C4_amended (run [Op.start 1 0]) 1 7 []).2.2.1 0 ⟨1, [], 0, none⟩
      (by decide) (by decide)⟩

/-- C5 counterexample: a repeated EndTask overwrites the already-set endTime
(5 becomes 9), so a later operation does change a set endTime. -/
theorem C5_counterexample :
    endTimeOf (run [Op.start 1 0, Op.stop 1 5]) 1 = some 5 ∧
    endTimeOf (run [Op.start 1 0, Op.stop 1 5, Op.stop 1 9]) 1 = some 9 ∧
    endTimeOf (run [Op.start 1 0, Op.stop 1 5, Op.stop 1 9]) 1 ≠
      endTimeOf (run [Op.start 1 0, Op.stop 1 5]) 1 := by decide

/-- C5 amended: StartTask and RecordCase never change a set endTime; a
repeated EndTask keeps the record ended but overwrites endTime with the later
clock reading; and whenever the EndTask clock reading is at least the
record's startTime (as with a monotone clock) the resulting endTime is at
least startTime. -/
theorem C5_amended (m : Manager) (h : WF m) (id id' now : Int) (c : String) (d : Int) :
    endTimeOf (TrackGoroutineStart id' now m) id = endTimeOf m id ∧
    endTimeOf (TrackSelectCase c d id' now m) id = endTimeOf m id ∧
    ∀ a cell, alookup m.Stats id = some a → alookup m.heapG a = some cell →
      endTimeOf (TrackGoroutineEnd id now m) id = some now ∧
      startTimeOf (TrackGoroutineEnd id now m) id = some cell.StartTime ∧
      (cell.StartTime ≤ now →
        ∀ t, endTimeOf (TrackGoroutineEnd id now m) id = some t → cell.StartTime ≤ t) := by
  refine ⟨endTimeOf_start m id' now id h, endTimeOf_record m c d id' now id h, ?_⟩
  intro a cell hs hg
  refine ⟨endTimeOf_stop_set m id now a cell hs hg, ?_, ?_⟩
  · rw [startTimeOf_stop]
    simp [startTimeOf, recordOf, hs, hg]
  · intro hle t ht
    rw [endTimeOf_stop_set m id now a cell hs hg] at ht
    injection ht with ht
    omega

/-- C5 witness: on a one-task registry, ending task 1 at time 5 yields
endTime 5 (at least the startTime 0), and a StartTask of id 2 leaves task 1's
endTime unchanged. -/
theorem C5_witness :
    endTimeOf (TrackGoroutineEnd 1 5 (run [Op.start 1 0])) 1 = some 5 ∧
    endTimeOf (TrackGoroutineStart 2 9 (run [Op.start 1 0])) 1 =
      endTimeOf (run [Op.start 1 0]) 1 :=
  ⟨((C5_amended (run [Op.start 1 0]) (wf_run _) 1 2 5 "x" 3).2.2 0 ⟨1, [], 0, none⟩
      (by decide) (by decide)).1,
    (C5_amended (run [Op.start 1 0]) (wf_run _) 1 2 9 "x" 3).1⟩

/-- C6 counterexample: a second StartTask for the same id leaves startTime at
its original value but performs a second completion-barrier increment
(counter 2 instead of 1), so it is not a no-op beyond returning the id. -/
theorem C6_counterexample :
    startTimeOf (run [Op.start 1 0, Op.start 1 5]) 1 = some 0 ∧
    (run [Op.start 1 0, Op.start 1 5]).wgCounter = 2 ∧
    (run [Op.start 1 0, Op.start 1 5]).wgCounter ≠ (run [Op.start 1 0]).wgCounter := by
  decide

/-- C6 amended: when the id already has a record, TrackGoroutineStart changes
no registry state at all — record map, heap, allocator and every startTime
are untouched — except that it still increments the completion barrier again.
-/
theorem C6_amended (m : Manager) (id now : Int) (a : Nat)
    (hs : alookup m.Stats id = some a) :
    TrackGoroutineStart id now m = { m with wgCounter := m.wgCounter + 1 } := by
  simp [TrackGoroutineStart, hs]

/-- C6 witness: re-starting the already-tracked id 1 only increments the
barrier. -/
theorem C6_witness :
    TrackGoroutineStart 1 5 (run [Op.start 1 0]) =
      { run [Op.start 1 0] with wgCounter := (run [Op.start 1 0]).wgCounter + 1 } :=
  C6_amended (run [Op.start 1 0]) 1 5 0 (by decide)

/-- C7: for every latency list and every P in [0, 100], GetPercentile returns
0 on the empty list and otherwise the element at index floor((n-1)·P/100) of
an ascending-sorted copy of the latencies (a permutation of the stored list);
the accumulator's stored sequence is untouched, the sort acting on the
private copy only. -/
theorem C7_percentile (s : SelectStats) (P : ℚ) (h0 : 0 ≤ P) (h1 : P ≤ 100) :
    (s.latencies = [] → s.GetPercentile P = 0) ∧
    (s.latencies ≠ [] →
      (List.insertionSort (· ≤ ·) s.latencies).Perm s.latencies ∧
      (List.insertionSort (· ≤ ·) s.latencies).Sorted (· ≤ ·) ∧
      (⌊((s.latencies.length : ℚ) - 1) * P / 100⌋).toNat < s.latencies.length ∧
      s.GetPercentile P =
        (List.insertionSort (· ≤ ·) s.latencies).getD
          (⌊((s.latencies.length : ℚ) - 1) * P / 100⌋).toNat 0) := by
  constructor
  · intro he
    simp [SelectStats.GetPercentile, he]
  · intro hne
    have hlen : s.latencies.length ≠ 0 := fun hh => hne (List.length_eq_zero.mp hh)
    have hn1 : 1 ≤ s.latencies.length := Nat.one_le_iff_ne_zero.mpr hlen
    refine ⟨List.perm_insertionSort _ _, List.sorted_insertionSort _ _, ?_, ?_⟩
    · have hn0 : (0 : ℚ) ≤ (s.latencies.length : ℚ) - 1 := by
        have hge : (1 : ℚ) ≤ (s.latencies.length : ℚ) := by exact_mod_cast hn1
        linarith
      have hx : ((s.latencies.length : ℚ) - 1) * P / 100 ≤ (s.latencies.length : ℚ) - 1 := by
        have hP : P / 100 ≤ 1 := by linarith
        calc ((s.latencies.length : ℚ) - 1) * P / 100
            = ((s.latencies.length : ℚ) - 1) * (P / 100) := by ring
          _ ≤ ((s.latencies.length : ℚ) - 1) * 1 :=
              mul_le_mul_of_nonneg_left hP hn0
          _ = (s.latencies.length : ℚ) - 1 := by ring
      have hcast : (((s.latencies.length : ℤ) - 1 : ℤ) : ℚ) = (s.latencies.length : ℚ) - 1 := by
        push_cast
        ring
      have hfl : ⌊((s.latencies.length : ℚ) - 1) * P / 100⌋ ≤ (s.latencies.length : ℤ) - 1 := by
        have h2 : ⌊((s.latencies.length : ℚ) - 1) * P / 100⌋ ≤
            ⌊(((s.latencies.length : ℤ) - 1 : ℤ) : ℚ)⌋ :=
          Int.floor_le_floor (by rw [hcast]; exact hx)
        simpa [Int.floor_intCast] using h2
      omega
    · simp [SelectStats.GetPercentile, hlen]

/-- C7 witness: the 90th percentile of the two-element latency list [7, 3] is
the floor-indexed element of its sorted copy. -/
theorem C7_witness :
    SelectStats.GetPercentile ⟨10, 2, [7, 3]⟩ 90 =
      (List.insertionSort (· ≤ ·) ([7, 3] : List Int)).getD
        (⌊((List.length ([7, 3] : List Int) : ℚ) - 1) * 90 / 100⌋).toNat 0 :=
  ((C7_percentile ⟨10, 2, [7, 3]⟩ 90 (by norm_num) (by norm_num)).2 (by decide)).2.2.2

/-- C8 counterexample: in the JSON score path actually dispatched from
cmd/idlespy (parseJSONEfficiency), a task with lifetime 0 gets efficiency 0,
not the claimed 1.0. -/
theorem C8_counterexample : parseJSONEfficiency 0 0 ≠ 1 := by
  norm_num [parseJSONEfficiency]

/-- C8 amended: both ParseJSONToGoroutineStats variants compute exactly
1 - B/L with no clamping when L > 0 and never divide by a non-positive
lifetime; at a non-positive lifetime the line_graph.go variant yields 1.0
while the variant dispatched from cmd/idlespy yields 0.0. -/
theorem C8_amended (B L : Int) :
    (0 < L → parseJSONEfficiency B L = 1 - (B : ℚ) / (L : ℚ) ∧
      lineGraphEfficiency B L = 1 - (B : ℚ) / (L : ℚ)) ∧
    (L ≤ 0 → parseJSONEfficiency B L = 0 ∧ lineGraphEfficiency B L = 1) := by
  constructor
  · intro h
    simp [parseJSONEfficiency, lineGraphEfficiency, h]
  · intro h
    have h' : ¬ 0 < L := by omega
    simp [parseJSONEfficiency, lineGraphEfficiency, h']

/-- C8 witness: with blocked 5 over lifetime 10 both variants give 1 - 5/10;
at lifetime 0 the dispatched variant gives 0 and the older one gives 1. -/
theorem C8_witness :
    (parseJSONEfficiency 5 10 = 1 - ((5 : Int) : ℚ) / ((10 : Int) : ℚ) ∧
      lineGraphEfficiency 5 10 = 1 - ((5 : Int) : ℚ) / ((10 : Int) : ℚ)) ∧
    (parseJSONEfficiency 5 0 = 0 ∧ lineGraphEfficiency 5 0 = 1) :=
  ⟨(C8_amended 5 10).1 (by norm_num), (C8_amended 5 0).2 (by norm_num)⟩

/-- C9 counterexample: an accumulator with one recorded zero duration has
hits = 1 > 0, yet the omitempty tag drops the zero-valued
average_blocked_time from the export, so presence of the derived fields is
not equivalent to hits > 0. -/
theorem C9_counterexample :
    0 < (buildCaseJSON (SelectStats.AddLatency emptySelectStats 0)).Hits ∧
    "average_blocked_time" ∉
      (caseJSONFields (buildCaseJSON (SelectStats.AddLatency emptySelectStats 0))).map
        Prod.fst := by
  constructor
  · simp [buildCaseJSON, SelectStats.AddLatency, emptySelectStats]
  · by_cases h90 : SelectStats.GetPercentile (SelectStats.AddLatency emptySelectStats 0) 90 = 0 <;>
      by_cases h99 : SelectStats.GetPercentile (SelectStats.AddLatency emptySelectStats 0) 99 = 0 <;>
      simp [caseJSONFields, buildCaseJSON, SelectStats.AddLatency, emptySelectStats, h90, h99]

/-- C9 amended: hits and total_blocked_time are always present in the
per-case JSON object; each derived field — average, P90, P99 — is present iff
hits > 0 and that field's computed value is nonzero, because the omitempty
tag additionally drops zero values. -/
theorem C9_amended (s : SelectStats) :
    "hits" ∈ (caseJSONFields (buildCaseJSON s)).map Prod.fst ∧
    "total_blocked_time" ∈ (caseJSONFields (buildCaseJSON s)).map Prod.fst ∧
    ("average_blocked_time" ∈ (caseJSONFields (buildCaseJSON s)).map Prod.fst ↔
      0 < s.CaseHits ∧ s.BlockedCaseTime.tdiv (s.CaseHits : Int) ≠ 0) ∧
    ("percentile_90" ∈ (caseJSONFields (buildCaseJSON s)).map Prod.fst ↔
      0 < s.CaseHits ∧ s.GetPercentile 90 ≠ 0) ∧
    ("percentile_99" ∈ (caseJSONFields (buildCaseJSON s)).map Prod.fst ↔
      0 < s.CaseHits ∧ s.GetPercentile 99 ≠ 0) := by
  by_cases hh : 0 < s.CaseHits
  · by_cases ha : s.BlockedCaseTime.tdiv (s.CaseHits : Int) = 0 <;>
      by_cases h90 : s.GetPercentile 90 = 0 <;>
      by_cases h99 : s.GetPercentile 99 = 0 <;>
      simp [caseJSONFields, buildCaseJSON, hh, ha, h90, h99]
  · simp [caseJSONFields, buildCaseJSON, hh]

/-- C9 witness: the hits field is present for a concrete accumulator. -/
theorem C9_witness :
    "hits" ∈ (caseJSONFields (buildCaseJSON ⟨5, 1, [5]⟩)).map Prod.fst :=
  (C9_amended ⟨5, 1, [5]⟩).1

/-- C10: PrintBlockedTimeHistogram places each task in the first bucket (in
the ascending bucket order) whose upper bound is at least the task's total
blocked time, with overflow exactly when the value exceeds every threshold;
and on buckets 0/10ms/50ms/100ms with blocked times 5ms/30ms/200ms the counts
are 10ms:1, 50ms:1, 100ms:0 with overflow 1 (nanosecond durations). -/
theorem C10_histogram (buckets : List Int) (t : Int) (hsorted : buckets.Sorted (· ≤ ·)) :
    (∀ b, placeBucket buckets t = some b →
      b ∈ buckets ∧ t ≤ b ∧ ∀ b' ∈ buckets, t ≤ b' → b ≤ b') ∧
    (placeBucket buckets t = none ↔ ∀ b ∈ buckets, b < t) ∧
    blockedTimeHistogram [0, 10000000, 50000000, 100000000]
        [5000000, 30000000, 200000000] =
      ([(0, 0), (10000000, 1), (50000000, 1), (100000000, 0)], 1) := by
  refine ⟨placeBucket_first t buckets hsorted, ?_, by decide⟩
  rw [placeBucket, List.find?_eq_none]
  simp [not_le]

/-- C10 witness: 30ms lands in the 50ms bucket, the least threshold at least
as large. -/
theorem C10_witness :
    placeBucket [0, 10000000, 50000000, 100000000] 30000000 = some 50000000 ∧
    (50000000 : Int) ∈ ([0, 10000000, 50000000, 100000000] : List Int) ∧
    (30000000 : Int) ≤ 50000000 :=
  ⟨by decide,
    ((C10_histogram [0, 10000000, 50000000, 100000000] 30000000 (by decide)).1
        50000000 (by decide)).1,
    ((C10_histogram [0, 10000000, 50000000, 100000000] 30000000 (by decide)).1
        50000000 (by decide)).2.1⟩

end IdleSpy
